import Mathlib

/-!
Verification of the Bradley-AI browser extension's scan-coordination and
trust-boundary subsystem.

The definitions below are shallow embeddings of the JavaScript source:

* `src/Bradley-Extension/background.js` — `AsyncMutex`, `atomicIncrement`,
  `atomicUpdate`, `NotificationRateLimiter`, `handleThreatDetection`,
  `storeThreatHistory`, `showThreatNotification`, `sanitizeUrl`, and the
  `THREAT` message handler.
* `src/unnamed/part_003` (content script) — `CONFIG`, `ExtensionState`
  (dedup cache), `BradleyAPIClient.analyzeMedia`, `MediaScanner.scan`,
  `ScanIndicator.showResult`.
* `src/unnamed/part_002` (`detection/api.js` variant) — `fetchWithTimeout`,
  `fetchWithRetry`, `detectDeepfake`.

JavaScript numbers carrying confidences are modelled as rationals (`ℚ`),
timestamps and HTTP statuses as naturals, JS `Map` insertion order as a list
of keys, and fallible storage/network operations as `Except`/explicit
outcome values.
-/

namespace Bradley

/-! ## Constants (background.js lines 1-5, part_003 CONFIG lines 1-12) -/

def MAX_THREAT_HISTORY : Nat := 100

def MAX_NOTIFICATIONS_PER_MINUTE : Nat := 5

def MAX_QUEUE_SIZE : Nat := 15

def MAX_CACHED_URLS : Nat := 500

def MAX_RETRIES : Nat := 2

def CONFIDENCE_THRESHOLD : ℚ := 0.70

/-! ## C5: threat history (background.js `storeThreatHistory`, lines 304-319)

The JS function does `history.push(threat)` and then, when
`history.length > MAX_THREAT_HISTORY`, a single `history.shift()`
(removal of the front element). -/

def storeThreatHistory {α : Type} (history : List α) (threat : α) : List α :=
  if (history ++ [threat]).length > MAX_THREAT_HISTORY then (history ++ [threat]).tail
  else history ++ [threat]

/-- Claim C5: the threat history is a bounded FIFO of capacity
`MAX_THREAT_HISTORY` (100): appending to a history already holding 100
records leaves exactly 100 records, with the single oldest record evicted
from the front and the new record at the most-recent (last) end; appending
to any shorter history grows it by exactly one, evicting nothing. -/
theorem storeThreatHistory_bounded_fifo {α : Type} (history : List α) (threat : α) :
    (history.length = MAX_THREAT_HISTORY →
      (storeThreatHistory history threat).length = MAX_THREAT_HISTORY ∧
      storeThreatHistory history threat = history.tail ++ [threat]) ∧
    (history.length < MAX_THREAT_HISTORY →
      storeThreatHistory history threat = history ++ [threat] ∧
      (storeThreatHistory history threat).length = history.length + 1) := by
  constructor
  · intro h
    have hgt : (history ++ [threat]).length > MAX_THREAT_HISTORY := by
      simp [h]
    rw [storeThreatHistory, if_pos hgt]
    cases history with
    | nil => simp [MAX_THREAT_HISTORY] at h
    | cons a t =>
      simp only [List.length_cons] at h
      simp [h]
  · intro h
    have hle : ¬ (history ++ [threat]).length > MAX_THREAT_HISTORY := by
      simp; omega
    rw [storeThreatHistory, if_neg hle]
    simp

/-- Witness for C5 at a concrete input: a history of exactly 100 entries
(the numbers 0..99) plus an appended record 100 keeps length 100 with the
front entry evicted, and a 2-entry history grows to 3 entries. -/
theorem storeThreatHistory_bounded_fifo_witness :
    ((List.range MAX_THREAT_HISTORY).length = MAX_THREAT_HISTORY →
      (storeThreatHistory (List.range MAX_THREAT_HISTORY) 100).length = MAX_THREAT_HISTORY ∧
      storeThreatHistory (List.range MAX_THREAT_HISTORY) 100 =
        (List.range MAX_THREAT_HISTORY).tail ++ [100]) ∧
    ((List.range MAX_THREAT_HISTORY).length < MAX_THREAT_HISTORY →
      storeThreatHistory (List.range MAX_THREAT_HISTORY) 100 =
        List.range MAX_THREAT_HISTORY ++ [100] ∧
      (storeThreatHistory (List.range MAX_THREAT_HISTORY) 100).length =
        (List.range MAX_THREAT_HISTORY).length + 1) ∧
    storeThreatHistory [0, 1] 2 = [0, 1, 2] :=
  ⟨(storeThreatHistory_bounded_fifo (List.range MAX_THREAT_HISTORY) 100).1,
   (storeThreatHistory_bounded_fifo (List.range MAX_THREAT_HISTORY) 100).2,
   ((storeThreatHistory_bounded_fifo [0, 1] 2).2 (by decide)).1⟩

/-! ## C2: confidence classification (part_003 `ScanIndicator.showResult`,
lines 190-208, and the threat-report gate in `MediaScanner.analyzeMedia`,
line 169)

`showResult` branches on `r.confidence >= CONFIG.CONFIDENCE_THRESHOLD`
(inclusive) and on `r.is_deepfake`; the AI-generated warning is rendered
persistently (explicit dismiss button), the other two auto-expire.
`MediaScanner.analyzeMedia` sends a `THREAT` message only when
`result.is_deepfake && result.confidence > CONFIG.CONFIDENCE_THRESHOLD`
(strict comparison). -/

inductive VerdictLabel : Type
  | AI_GENERATED
  | HUMAN_GENERATED
  | UNKNOWN
  deriving DecidableEq, Repr

structure Verdict : Type where
  label : VerdictLabel
  persistent : Bool
  deriving DecidableEq, Repr

def classify (confidence : ℚ) (is_deepfake : Bool) : Verdict :=
  if confidence ≥ CONFIDENCE_THRESHOLD then
    if is_deepfake then ⟨.AI_GENERATED, true⟩
    else ⟨.HUMAN_GENERATED, false⟩
  else ⟨.UNKNOWN, false⟩

def threatReportGate (is_deepfake : Bool) (confidence : ℚ) : Bool :=
  is_deepfake && decide (confidence > CONFIDENCE_THRESHOLD)

/-- Counterexample for claim C2: the classifier treats the threshold 0.70
inclusively (`classify 0.70 true` is the persistent `AI_GENERATED`
verdict), but the downstream threat-report gate in
`MediaScanner.analyzeMedia` uses a strict comparison, so at confidence
exactly 0.70 with `is_deepfake = true` no `THREAT` message is sent: the
inclusive boundary does not govern whether a threat is reported. -/
theorem classify_boundary_not_shared_with_report :
    classify 0.70 true = ⟨.AI_GENERATED, true⟩ ∧
    threatReportGate true 0.70 = false := by
  constructor
  · simp [classify, CONFIDENCE_THRESHOLD]
  · simp [threatReportGate, CONFIDENCE_THRESHOLD]

/-- Claim C2 (amended): the confidence-to-verdict classification treats
the threshold 0.70 as inclusive — `classify 0.70 true = AI_GENERATED`
(persistent), `classify 0.6999 true = UNKNOWN` (non-persistent), and
`classify 0.95 false = HUMAN_GENERATED` (non-persistent) — but the
threat-report decision in `MediaScanner.analyzeMedia` uses a strict
comparison: for every confidence, a detected deepfake is reported exactly
when its confidence is strictly greater than 0.70, so at confidence
exactly 0.70 the verdict is `AI_GENERATED` yet no threat is reported. -/
theorem classify_inclusive_report_strict :
    classify 0.70 true = ⟨.AI_GENERATED, true⟩ ∧
    classify 0.6999 true = ⟨.UNKNOWN, false⟩ ∧
    classify 0.95 false = ⟨.HUMAN_GENERATED, false⟩ ∧
    (∀ confidence : ℚ,
      threatReportGate true confidence = decide (confidence > CONFIDENCE_THRESHOLD)) ∧
    threatReportGate true 0.70 = false := by
  refine ⟨?_, ?_, ?_, ?_, ?_⟩
  · simp [classify, CONFIDENCE_THRESHOLD]
  · have h : ¬ ((0.6999 : ℚ) ≥ CONFIDENCE_THRESHOLD) := by
      norm_num [CONFIDENCE_THRESHOLD]
    simp [classify, h]
  · have h : ((0.95 : ℚ) ≥ CONFIDENCE_THRESHOLD) := by
      norm_num [CONFIDENCE_THRESHOLD]
    simp [classify, h]
  · intro confidence
    simp [threatReportGate]
  · simp [threatReportGate, CONFIDENCE_THRESHOLD]

/-! ## C3 / C4: media discovery, dedup cache and bounded queue
(part_003 `MediaScanner.scan` lines 124-148, `ExtensionState.hasScannedUrl`
and `markScanned` lines 47-54)

`scan` iterates over the media elements of the page.  Per element it:
returns if `dataset.bradleyScanned` is already set; marks `skipped` if the
URL is empty or a `blob:`/`data:` URL; marks `duplicate` if the URL is in
the `scannedUrls` cache; silently returns (no mark, no enqueue) if the
queue holds at least `MAX_QUEUE_SIZE` items; otherwise marks `pending`,
writes the URL into the cache via `markScanned`, and pushes onto
`scanQueue`.  `markScanned` deletes the oldest (first-inserted) cache key
when the cache is at `MAX_CACHED_URLS`, then inserts.  `processQueue`
drains the queue from the front.

The JS `Map` is modelled by its insertion-ordered key list (the stored
timestamps are never read by `hasScannedUrl`).  `pushedLog` instruments
the state with every URL ever pushed onto the queue, so "enqueued at most
once" is expressible. -/

inductive ScanStatus : Type
  | unscanned
  | pending
  | complete
  | error
  | duplicate
  | skipped
  deriving DecidableEq, Repr

structure MediaElem : Type where
  url : String
  status : ScanStatus
  deriving DecidableEq, Repr

structure ScannerState : Type where
  scannedUrls : List String
  queue : List String
  pushedLog : List String
  deriving DecidableEq, Repr

def strStartsWith (s p : String) : Bool :=
  decide (s.data.take p.data.length = p.data)

def urlSkippable (url : String) : Bool :=
  url = "" || strStartsWith url "blob:" || strStartsWith url "data:"

def markScanned (keys : List String) (url : String) : List String :=
  let keys1 := if keys.length ≥ MAX_CACHED_URLS then keys.tail else keys
  if url ∈ keys1 then keys1 else keys1 ++ [url]

theorem markScanned_no_evict (keys : List String) (url : String)
    (hroom : keys.length < MAX_CACHED_URLS) (hmem : url ∉ keys) :
    markScanned keys url = keys ++ [url] := by
  have hc : ¬ (keys.length ≥ MAX_CACHED_URLS) := not_le.mpr hroom
  simp only [markScanned, if_neg hc, if_neg hmem]

def scanStep (s : ScannerState) (m : MediaElem) : ScannerState × MediaElem :=
  if m.status ≠ .unscanned then (s, m)
  else if urlSkippable m.url then (s, { m with status := .skipped })
  else if m.url ∈ s.scannedUrls then (s, { m with status := .duplicate })
  else if s.queue.length ≥ MAX_QUEUE_SIZE then (s, m)
  else ({ scannedUrls := markScanned s.scannedUrls m.url,
          queue := s.queue ++ [m.url],
          pushedLog := s.pushedLog ++ [m.url] },
        { m with status := .pending })

def dequeueStep (s : ScannerState) : ScannerState :=
  match s.queue with
  | [] => s
  | _ :: rest => { s with queue := rest }

inductive ScanEvent : Type
  | discover (m : MediaElem)
  | drain
  deriving DecidableEq, Repr

def runScan : ScannerState → List ScanEvent → ScannerState
  | s, [] => s
  | s, .discover m :: rest => runScan (scanStep s m).1 rest
  | s, .drain :: rest => runScan (dequeueStep s) rest

def discoverCount (events : List ScanEvent) : Nat :=
  events.countP (fun e => match e with | .discover _ => true | .drain => false)

/-- Invariant carried through every scan pass: every URL ever pushed onto
the queue sits in the dedup cache, no URL was pushed twice, and pushed
URLs passed the empty/`blob:`/`data:` filter. -/
structure ScanInv (s : ScannerState) : Prop where
  pushed_mem : ∀ u ∈ s.pushedLog, u ∈ s.scannedUrls
  pushed_nodup : s.pushedLog.Nodup
  pushed_ok : ∀ u ∈ s.pushedLog, urlSkippable u = false

theorem markScanned_length_le (keys : List String) (url : String) :
    (markScanned keys url).length ≤ keys.length + 1 := by
  have htail : keys.tail.length = keys.length - 1 := keys.length_tail
  by_cases hful : keys.length ≥ MAX_CACHED_URLS
  · by_cases hm : url ∈ keys.tail
    · simp only [markScanned, if_pos hful, if_pos hm]
      omega
    · simp only [markScanned, if_pos hful, if_neg hm]
      simp only [List.length_append, List.length_cons, List.length_nil]
      omega
  · by_cases hm : url ∈ keys
    · simp only [markScanned, if_pos hm, if_neg hful]
      omega
    · simp only [markScanned, if_neg hful, if_neg hm]
      simp only [List.length_append, List.length_cons, List.length_nil]
      omega

theorem scanStep_cache_growth (s : ScannerState) (m : MediaElem) :
    (scanStep s m).1.scannedUrls.length ≤ s.scannedUrls.length + 1 := by
  unfold scanStep
  split
  · simp
  split
  · simp
  split
  · simp
  split
  · simp
  · exact markScanned_length_le s.scannedUrls m.url

theorem scanStep_inv (s : ScannerState) (m : MediaElem)
    (hinv : ScanInv s) (hroom : s.scannedUrls.length < MAX_CACHED_URLS) :
    ScanInv (scanStep s m).1 := by
  unfold scanStep
  split
  · exact hinv
  split
  · exact hinv
  split
  · exact hinv
  split
  · exact hinv
  · rename_i hset hskip hmem hq
    have hmark : markScanned s.scannedUrls m.url = s.scannedUrls ++ [m.url] :=
      markScanned_no_evict s.scannedUrls m.url hroom hmem
    have hnot : m.url ∉ s.pushedLog := fun hc => hmem (hinv.pushed_mem _ hc)
    constructor
    · intro u hu
      simp only [hmark, List.mem_append, List.mem_singleton]
      simp only [List.mem_append, List.mem_singleton] at hu
      rcases hu with hu | hu
      · exact Or.inl (hinv.pushed_mem u hu)
      · exact Or.inr hu
    · refine List.Nodup.append hinv.pushed_nodup (List.nodup_singleton _) ?_
      intro a ha hb
      simp only [List.mem_singleton] at hb
      subst hb
      exact hnot ha
    · intro u hu
      simp only [List.mem_append, List.mem_singleton] at hu
      rcases hu with hu | hu
      · exact hinv.pushed_ok u hu
      · subst hu
        simpa using hskip

theorem dequeueStep_inv (s : ScannerState) (hinv : ScanInv s) :
    ScanInv (dequeueStep s) := by
  unfold dequeueStep
  cases s.queue with
  | nil => exact hinv
  | cons a rest => exact ⟨hinv.pushed_mem, hinv.pushed_nodup, hinv.pushed_ok⟩

theorem runScan_inv (events : List ScanEvent) (s : ScannerState)
    (hinv : ScanInv s)
    (hroom : s.scannedUrls.length + discoverCount events ≤ MAX_CACHED_URLS) :
    ScanInv (runScan s events) := by
  induction events generalizing s with
  | nil => exact hinv
  | cons e rest ih =>
    cases e with
    | discover m =>
      have hcount : discoverCount (ScanEvent.discover m :: rest) =
          discoverCount rest + 1 := by
        simp [discoverCount]
      rw [hcount] at hroom
      have hroom1 : s.scannedUrls.length < MAX_CACHED_URLS := by omega
      have hgrow := scanStep_cache_growth s m
      exact ih (scanStep s m).1 (scanStep_inv s m hinv hroom1) (by omega)
    | drain =>
      have hcount : discoverCount (ScanEvent.drain :: rest) = discoverCount rest := by
        simp [discoverCount]
      rw [hcount] at hroom
      have : (dequeueStep s).scannedUrls = s.scannedUrls := by
        unfold dequeueStep
        cases s.queue <;> rfl
      exact ih (dequeueStep s) (dequeueStep_inv s hinv) (by rw [this]; omega)

theorem runScan_append (s : ScannerState) (a b : List ScanEvent) :
    runScan s (a ++ b) = runScan (runScan s a) b := by
  induction a generalizing s with
  | nil => rfl
  | cons e rest ih =>
    cases e with
    | discover m => simpa [runScan] using ih (scanStep s m).1
    | drain => simpa [runScan] using ih (dequeueStep s)

/-- Claim C3: within the cache's retention period (modelled as: the cache
starts empty and fewer discoveries than `MAX_CACHED_URLS` occur, so
`markScanned` never evicts), any URL is enqueued for analysis at most
once across the whole sequence of discovery passes; the URL is written
into the dedup cache at the moment the first element transitions to
`pending`, so any later element bearing the same already-enqueued URL is
marked `duplicate` and causes no enqueue (the scanner state is untouched). -/
theorem scan_dedup_at_most_once (events : List ScanEvent) (u : String)
    (s₀ : ScannerState)
    (hcache : s₀.scannedUrls = []) (hlog : s₀.pushedLog = [])
    (hcount : discoverCount events ≤ MAX_CACHED_URLS) :
    (runScan s₀ events).pushedLog.count u ≤ 1 ∧
    (∀ evs1 m evs2, events = evs1 ++ ScanEvent.discover m :: evs2 →
      m.status = .unscanned → m.url ∈ (runScan s₀ evs1).pushedLog →
      (scanStep (runScan s₀ evs1) m).2.status = .duplicate ∧
      (scanStep (runScan s₀ evs1) m).1 = runScan s₀ evs1) := by
  have hinv0 : ScanInv s₀ := by
    constructor <;> simp [hcache, hlog]
  constructor
  · have hfin : ScanInv (runScan s₀ events) :=
      runScan_inv events s₀ hinv0 (by rw [hcache]; simpa using hcount)
    exact List.nodup_iff_count_le_one.mp hfin.pushed_nodup u
  · intro evs1 m evs2 hsplit hm hu
    have hc1 : discoverCount evs1 ≤ MAX_CACHED_URLS := by
      have : discoverCount events = discoverCount evs1 +
          discoverCount (ScanEvent.discover m :: evs2) := by
        rw [hsplit]; simp [discoverCount]
      omega
    have hmid : ScanInv (runScan s₀ evs1) :=
      runScan_inv evs1 s₀ hinv0 (by rw [hcache]; simpa using hc1)
    have hcache' : m.url ∈ (runScan s₀ evs1).scannedUrls :=
      hmid.pushed_mem _ hu
    have hok : urlSkippable m.url = false := hmid.pushed_ok _ hu
    unfold scanStep
    rw [if_neg (by simp [hm])]
    rw [if_neg (by simp [hok])]
    rw [if_pos hcache']
    exact ⟨rfl, rfl⟩

/-- Witness for C3 at a concrete input: two discovery events for distinct
elements sharing the URL `https://a/v.mp4`; the URL ends up in the push
log exactly once, and the second element is marked `duplicate` while the
scanner state is unchanged by it. -/
theorem scan_dedup_at_most_once_witness :
    (runScan ⟨[], [], []⟩
        [ScanEvent.discover ⟨"https://a/v.mp4", .unscanned⟩,
         ScanEvent.discover ⟨"https://a/v.mp4", .unscanned⟩]).pushedLog.count
      "https://a/v.mp4" ≤ 1 ∧
    ((scanStep (runScan ⟨[], [], []⟩
          [ScanEvent.discover ⟨"https://a/v.mp4", .unscanned⟩])
        ⟨"https://a/v.mp4", .unscanned⟩).2.status = .duplicate ∧
      (scanStep (runScan ⟨[], [], []⟩
          [ScanEvent.discover ⟨"https://a/v.mp4", .unscanned⟩])
        ⟨"https://a/v.mp4", .unscanned⟩).1 =
        runScan ⟨[], [], []⟩
          [ScanEvent.discover ⟨"https://a/v.mp4", .unscanned⟩]) := by
  have h := scan_dedup_at_most_once
    [ScanEvent.discover ⟨"https://a/v.mp4", .unscanned⟩,
     ScanEvent.discover ⟨"https://a/v.mp4", .unscanned⟩]
    "https://a/v.mp4" ⟨[], [], []⟩ rfl rfl (by decide)
  refine ⟨h.1, h.2 [ScanEvent.discover ⟨"https://a/v.mp4", .unscanned⟩]
    ⟨"https://a/v.mp4", .unscanned⟩ [] rfl rfl ?_⟩
  decide

theorem scanStep_queue_le (s : ScannerState) (m : MediaElem)
    (h : s.queue.length ≤ MAX_QUEUE_SIZE) :
    (scanStep s m).1.queue.length ≤ MAX_QUEUE_SIZE := by
  unfold scanStep
  split
  · exact h
  split
  · exact h
  split
  · exact h
  split
  · exact h
  · rename_i hq
    simp only [List.length_append, List.length_cons, List.length_nil]
    omega

/-- Claim C4: across every sequence of discovery and drain events, the
scan queue never grows past `MAX_QUEUE_SIZE` (15); and when the queue is
at capacity, a discovered element that would otherwise be enqueued is
dropped silently — the scanner state and the element's status are both
left exactly as they were (no error status, no enqueue, no cache write). -/
theorem scan_queue_bounded (s : ScannerState) (events : List ScanEvent)
    (hstart : s.queue.length ≤ MAX_QUEUE_SIZE) :
    (runScan s events).queue.length ≤ MAX_QUEUE_SIZE ∧
    (∀ m : MediaElem, m.status = .unscanned → urlSkippable m.url = false →
      m.url ∉ s.scannedUrls → s.queue.length = MAX_QUEUE_SIZE →
      scanStep s m = (s, m)) := by
  constructor
  · induction events generalizing s with
    | nil => exact hstart
    | cons e rest ih =>
      cases e with
      | discover m => exact ih (scanStep s m).1 (scanStep_queue_le s m hstart)
      | drain =>
        refine ih (dequeueStep s) ?_
        unfold dequeueStep
        cases hq : s.queue with
        | nil => simp only [hq] at hstart ⊢; exact hstart
        | cons a t =>
          rw [hq] at hstart
          simp at hstart ⊢
          omega
  · intro m hm hok hmem hfull
    unfold scanStep
    rw [if_neg (by simp [hm])]
    rw [if_neg (by simp [hok])]
    rw [if_neg hmem]
    rw [if_pos (by omega)]

/-- Witness for C4 at a concrete input: starting from a full queue of 15
URLs, a pass discovering one more valid element leaves the queue at
length ≤ 15, and the element is dropped with state and status untouched. -/
theorem scan_queue_bounded_witness :
    (runScan ⟨[], List.replicate MAX_QUEUE_SIZE "https://q/x.mp4", []⟩
        [ScanEvent.discover ⟨"https://a/v.mp4", .unscanned⟩]).queue.length ≤
      MAX_QUEUE_SIZE ∧
    scanStep ⟨[], List.replicate MAX_QUEUE_SIZE "https://q/x.mp4", []⟩
        ⟨"https://a/v.mp4", .unscanned⟩ =
      (⟨[], List.replicate MAX_QUEUE_SIZE "https://q/x.mp4", []⟩,
       ⟨"https://a/v.mp4", .unscanned⟩) := by
  have h := scan_queue_bounded
    ⟨[], List.replicate MAX_QUEUE_SIZE "https://q/x.mp4", []⟩
    [ScanEvent.discover ⟨"https://a/v.mp4", .unscanned⟩] (by decide)
  exact ⟨h.1, h.2 ⟨"https://a/v.mp4", .unscanned⟩ rfl (by decide) (by decide) (by decide)⟩

/-! ## C6: retry discipline
(part_002 `fetchWithTimeout` lines 41-59 and `fetchWithRetry` lines 61-90;
part_003 `BradleyAPIClient.analyzeMedia` lines 89-119)

Each network attempt has one of three raw outcomes: an HTTP response with
some status, a network error, or an abort fired by the timeout timer
(`AbortError`).  `fetchWithTimeout` converts an `AbortError` into a thrown
`Error('Request timeout')` and re-throws network errors.
`fetchWithRetry` loops `attempt = 0 .. retries`; a 4xx response
(`status >= 400 && status < 500`) and an ok response return immediately;
any other response or any thrown error waits `2^attempt * 1000` ms and
retries while `attempt < retries`, else the response is returned / the
error re-thrown.

`BradleyAPIClient.analyzeMedia` instead throws `Error('HTTP <status>')`
for every non-ok response (4xx included), throws `Error('Invalid
response')` on a malformed body, and in its catch retries after
`2^retries * 1000` ms only when `retries < CONFIG.MAX_RETRIES` AND the
error's name is not `'AbortError'`; an abort is re-thrown at once.

The environment is modelled as the list of outcomes the successive
attempts would observe (the head is consumed by the current attempt); the
models return the final result together with the list of backoff delays
slept, in order.  Since the loop makes at most `retries + 1` attempts,
the empty-list case is unreachable whenever the supplied list is longer
than `retries`. -/

inductive AttemptOutcome : Type
  | resp (status : Nat)
  | netErr
  | aborted
  deriving DecidableEq, Repr

inductive FetchResult : Type
  | resp (status : Nat)
  | thrown (msg : String)
  deriving DecidableEq, Repr

def respOk (status : Nat) : Bool :=
  200 ≤ status && status ≤ 299

def fetchWithTimeout (a : AttemptOutcome) : FetchResult :=
  match a with
  | .resp s => .resp s
  | .netErr => .thrown "network error"
  | .aborted => .thrown "Request timeout"

def fetchRetryGo (retries : Nat) : Nat → List AttemptOutcome → FetchResult × List Nat
  | _, [] => (.thrown "no attempt", [])
  | attempt, a :: rest =>
    match fetchWithTimeout a with
    | .resp s =>
      if 400 ≤ s ∧ s < 500 then (.resp s, [])
      else if respOk s then (.resp s, [])
      else if attempt < retries then
        let r := fetchRetryGo retries (attempt + 1) rest
        (r.1, 2 ^ attempt * 1000 :: r.2)
      else (.resp s, [])
    | .thrown e =>
      if attempt < retries then
        let r := fetchRetryGo retries (attempt + 1) rest
        (r.1, 2 ^ attempt * 1000 :: r.2)
      else (.thrown e, [])

def fetchWithRetryRun (outs : List AttemptOutcome) : FetchResult × List Nat :=
  fetchRetryGo MAX_RETRIES 0 outs

/-- part_003 `BradleyAPIClient.analyzeMedia` attempt outcome: an HTTP
response additionally carries whether the JSON body has a boolean
`is_deepfake` field (the only shape check that client performs). -/
inductive ClientAttemptOutcome : Type
  | resp (status : Nat) (shapeOk : Bool)
  | netErr
  | aborted
  deriving DecidableEq, Repr

inductive ClientResult : Type
  | success (status : Nat)
  | thrown (name : String)
  deriving DecidableEq, Repr

/-- The error name thrown by one `analyzeMedia` attempt, or the successful
status: non-ok responses throw a generic `Error` (`HTTP <status>`),
malformed bodies throw a generic `Error` (`Invalid response`), fetch
network failures throw a `TypeError`, and an abort surfaces as an
`AbortError`. -/
def clientAttemptResult (a : ClientAttemptOutcome) : Except String Nat :=
  match a with
  | .resp s shapeOk =>
    if ¬ respOk s then .error "Error"
    else if ¬ shapeOk then .error "Error"
    else .ok s
  | .netErr => .error "TypeError"
  | .aborted => .error "AbortError"

def analyzeMediaGo : Nat → List ClientAttemptOutcome → ClientResult × List Nat
  | _, [] => (.thrown "no attempt", [])
  | retries, a :: rest =>
    match clientAttemptResult a with
    | .ok s => (.success s, [])
    | .error name =>
      if retries < MAX_RETRIES ∧ name ≠ "AbortError" then
        let r := analyzeMediaGo (retries + 1) rest
        (r.1, 2 ^ retries * 1000 :: r.2)
      else (.thrown name, [])

def analyzeMediaRun (outs : List ClientAttemptOutcome) : ClientResult × List Nat :=
  analyzeMediaGo 0 outs

def abortedAttempts : List ClientAttemptOutcome := [.aborted, .aborted, .aborted]

def notFoundAttempts : List ClientAttemptOutcome :=
  [.resp 404 true, .resp 404 true, .resp 404 true]

/-- Counterexample for claim C6: in `BradleyAPIClient.analyzeMedia` the
stated retry discipline does not hold — a timed-out (aborted) request is
re-thrown immediately with no backoff retry (the delay list is empty,
where the claim requires exponential-backoff retries up to the cap), and
a 4xx response is not returned immediately but retried twice with
backoff delays 1000 and 2000 ms before the error is surfaced. -/
theorem analyzeMedia_retry_discipline_cex :
    analyzeMediaRun abortedAttempts = (.thrown "AbortError", []) ∧
    analyzeMediaRun notFoundAttempts = (.thrown "Error", [1000, 2000]) := by
  constructor <;> rfl

theorem fetchRetryGo_no_ok_attempt (outs : List AttemptOutcome) :
    ∀ retries attempt s,
      (∀ a ∈ outs, ∀ st, a = AttemptOutcome.resp st → respOk st = false) →
      (fetchRetryGo retries attempt outs).1 = .resp s → respOk s = false := by
  induction outs with
  | nil =>
    intro retries attempt s _ hs
    simp [fetchRetryGo] at hs
  | cons a rest ih =>
    intro retries attempt s h hs
    have ha := h a (List.mem_cons_self a rest)
    have hrest : ∀ b ∈ rest, ∀ st, b = AttemptOutcome.resp st → respOk st = false :=
      fun b hb => h b (List.mem_cons_of_mem a hb)
    revert hs
    unfold fetchRetryGo
    cases a with
    | resp st =>
      simp only [fetchWithTimeout]
      split
      · intro hs
        injection hs with h1
        subst h1
        exact ha _ rfl
      split
      · intro hs
        injection hs with h1
        subst h1
        exact ha _ rfl
      split
      · intro hs
        exact ih retries (attempt + 1) s hrest hs
      · intro hs
        injection hs with h1
        subst h1
        exact ha _ rfl
    | netErr =>
      simp only [fetchWithTimeout]
      split
      · intro hs
        exact ih retries (attempt + 1) s hrest hs
      · intro hs
        simp at hs
    | aborted =>
      simp only [fetchWithTimeout]
      split
      · intro hs
        exact ih retries (attempt + 1) s hrest hs
      · intro hs
        simp at hs

/-- Claim C6 (amended): the retry discipline differs between the two
clients.  In `fetchWithRetry` (part_002) the claim holds: a 4xx response
is returned immediately with no retry and no backoff sleep; a timeout is
retried with exponential backoff `2^attempt * 1000` ms up to the retry
cap `MAX_RETRIES = 2` and, if every attempt times out, surfaces as a
thrown timeout error — an aborted request is never classified as a
success, and more generally no run without an ok (2xx) attempt ever
produces an ok response; a 5xx is likewise retried with the same backoff.
In `BradleyAPIClient.analyzeMedia` (part_003), by contrast, an aborted
request is re-thrown immediately — never retried and never a success —
while every other failure, 4xx responses included, is retried with
backoff `2^attempt * 1000` ms up to `MAX_RETRIES = 2`. -/
theorem retry_discipline :
    (∀ s (rest : List AttemptOutcome), 400 ≤ s → s < 500 →
      fetchWithRetryRun (.resp s :: rest) = (.resp s, [])) ∧
    (∀ rest : List AttemptOutcome,
      fetchWithRetryRun (.aborted :: .aborted :: .aborted :: rest) =
        (.thrown "Request timeout", [1000, 2000])) ∧
    (∀ (outs : List AttemptOutcome) s,
      (∀ a ∈ outs, ∀ st, a = AttemptOutcome.resp st → respOk st = false) →
      (fetchWithRetryRun outs).1 = .resp s → respOk s = false) ∧
    (∀ rest : List AttemptOutcome,
      fetchWithRetryRun (.resp 503 :: .resp 200 :: rest) = (.resp 200, [1000])) ∧
    (∀ rest : List ClientAttemptOutcome,
      analyzeMediaRun (.aborted :: rest) = (.thrown "AbortError", [])) ∧
    (∀ s (rest : List ClientAttemptOutcome), 400 ≤ s → s < 500 →
      analyzeMediaRun (.resp s true :: .resp 200 true :: rest) =
        (.success 200, [1000])) := by
  refine ⟨?_, ?_, ?_, ?_, ?_, ?_⟩
  · intro s rest h4 h5
    unfold fetchWithRetryRun fetchRetryGo
    simp only [fetchWithTimeout]
    rw [if_pos ⟨h4, h5⟩]
  · intro rest
    rfl
  · intro outs s h hs
    exact fetchRetryGo_no_ok_attempt outs MAX_RETRIES 0 s h hs
  · intro rest
    rfl
  · intro rest
    rfl
  · intro s rest h4 h5
    have hnotok : respOk s = false := by
      simp [respOk]
      omega
    unfold analyzeMediaRun analyzeMediaGo
    simp only [clientAttemptResult, hnotok]
    norm_num [MAX_RETRIES]
    rfl

/-- Witness for the amended C6 at concrete inputs: a first-attempt 404 is
returned immediately by `fetchWithRetry`; an all-abort run exhausts both
backoff retries there and surfaces as a thrown timeout (no response of an
all-503 run is ok); a 503-then-200 run succeeds after one 1000 ms
backoff; in `analyzeMedia` a first-attempt abort is thrown with no retry,
and a 404-then-200 run is retried once and succeeds. -/
theorem retry_discipline_witness :
    fetchWithRetryRun [.resp 404, .resp 404, .resp 404] = (.resp 404, []) ∧
    fetchWithRetryRun [.aborted, .aborted, .aborted] =
      (.thrown "Request timeout", [1000, 2000]) ∧
    respOk 503 = false ∧
    fetchWithRetryRun [.resp 503, .resp 200, .resp 200] = (.resp 200, [1000]) ∧
    analyzeMediaRun [.aborted, .aborted, .aborted] = (.thrown "AbortError", []) ∧
    analyzeMediaRun [.resp 404 true, .resp 200 true, .resp 200 true] =
      (.success 200, [1000]) := by
  refine ⟨?_, ?_, ?_, ?_, ?_, ?_⟩
  · exact retry_discipline.1 404 [.resp 404, .resp 404] (by omega) (by omega)
  · exact retry_discipline.2.1 [.aborted]
  · have h := retry_discipline.2.2.1 [.resp 503, .resp 503, .resp 503] 503
    by_contra hc
    simp only [Bool.not_eq_false] at hc
    have : respOk 503 = false := by decide
    simp [this] at hc
  · exact retry_discipline.2.2.2.1 [.resp 200]
  · exact retry_discipline.2.2.2.2.1 [.aborted, .aborted]
  · exact retry_discipline.2.2.2.2.2 404 [.resp 200 true] (by omega) (by omega)

/-! ## C7: oracle response-shape validation
(part_002 `detectDeepfake` lines 119-135; part_003
`BradleyAPIClient.analyzeMedia` lines 107-110)

`detectDeepfake` checks only `typeof data.is_deepfake !== 'boolean'`; on
success it builds `{ success: true, is_deepfake, confidence:
data.confidence || 0, analysis: data.analysis || {}, model: data.model ||
'unknown' }`, so a missing confidence is silently replaced by the default
`0` rather than rejected — and `||` keeps any truthy value, whatever its
type.  `analyzeMedia` likewise checks only `typeof result.is_deepfake
!== 'boolean'` and otherwise returns the parsed body unchanged,
confidence unexamined.  JSON field values are modelled by a small
dynamic-value type; `missing` stands for an absent field (and for
`null`/`undefined`, which behave the same under `||`). -/

inductive JsonVal : Type
  | bool (b : Bool)
  | num (q : ℚ)
  | str (s : String)
  | missing
  deriving DecidableEq, Repr

/-- JS truthiness of a JSON value: `false`, `0`, the empty string, and an
absent (`undefined`/`null`) field are falsy; every other value — of any
type — is truthy.  (A JSON-parsed number is never NaN.) -/
def jsTruthy (v : JsonVal) : Bool :=
  match v with
  | .bool b => b
  | .num q => decide (q ≠ 0)
  | .str s => decide (s ≠ "")
  | .missing => false

/-- JS `x || d`: keep `x` whenever it is truthy — with its original type
and value, uncoerced — and fall back to `d` otherwise. -/
def jsOr (v : JsonVal) (d : JsonVal) : JsonVal :=
  if jsTruthy v then v else d

structure OracleBody : Type where
  is_deepfake : JsonVal
  confidence : JsonVal
  model : JsonVal
  deriving DecidableEq, Repr

inductive DetectResult : Type
  | failure (error : String)
  | success (is_deepfake : Bool) (confidence : JsonVal) (model : JsonVal)
  deriving DecidableEq, Repr

def DetectResult.isFailure : DetectResult → Bool
  | .failure _ => true
  | .success _ _ _ => false

/-- The response-handling tail of `detectDeepfake` (part_002 lines
119-135), applied to a response with HTTP status `status` and parsed JSON
body `body`. -/
def detectDeepfakeResponse (status : Nat) (body : OracleBody) : DetectResult :=
  if ¬ respOk status then .failure "API request failed"
  else
    match body.is_deepfake with
    | .bool b => .success b (jsOr body.confidence (.num 0)) (jsOr body.model (.str "unknown"))
    | _ => .failure "Invalid API response format"

/-- The response-shape check of `BradleyAPIClient.analyzeMedia` (part_003
line 109): accept iff the body has a boolean `is_deepfake`; the
confidence field is never inspected. -/
def analyzeMediaShapeOk (body : OracleBody) : Bool :=
  match body.is_deepfake with
  | .bool _ => true
  | _ => false

def missingConfidenceBody : OracleBody :=
  { is_deepfake := .bool true, confidence := .missing, model := .missing }

/-- Counterexample for claim C7: an ok (HTTP 200) oracle response whose
body has `is_deepfake: true` but no confidence field at all is not
treated as an error — `detectDeepfake` silently substitutes the default
`0` for the missing confidence and reports success, and the
content-script client's shape check accepts the same body. -/
theorem response_validation_cex :
    detectDeepfakeResponse 200 missingConfidenceBody =
      .success true (.num 0) (.str "unknown") ∧
    (detectDeepfakeResponse 200 missingConfidenceBody).isFailure = false ∧
    analyzeMediaShapeOk missingConfidenceBody = true := by
  refine ⟨rfl, rfl, rfl⟩

/-- Claim C7 (amended): the clients validate only the boolean AI flag of
an oracle response, not the confidence.  A response body whose
`is_deepfake` is not a boolean is treated as an error by both clients;
but the confidence field is never validated: a response lacking it is not
an error — `detectDeepfake` silently substitutes the default `0` and
reports success (in general its success result carries
`data.confidence || 0` and `data.model || 'unknown'`, `||` keeping any
truthy value of any type uncoerced) — and `analyzeMedia`'s shape check
passes any body with a boolean `is_deepfake` regardless of its
confidence field. -/
theorem response_validation_flag_only :
    (∀ status body, analyzeMediaShapeOk body = false → respOk status = true →
      (detectDeepfakeResponse status body).isFailure = true) ∧
    (∀ body b, body.is_deepfake = .bool b → respOk 200 = true →
      detectDeepfakeResponse 200 body =
        .success b (jsOr body.confidence (.num 0)) (jsOr body.model (.str "unknown"))) ∧
    (∀ confidence model b,
      analyzeMediaShapeOk { is_deepfake := .bool b, confidence := confidence,
                            model := model } = true) ∧
    (∀ model b,
      detectDeepfakeResponse 200
        { is_deepfake := .bool b, confidence := .missing, model := model } =
        .success b (.num 0) (jsOr model (.str "unknown"))) := by
  refine ⟨?_, ?_, ?_, ?_⟩
  · intro status body hshape hok
    unfold detectDeepfakeResponse
    rw [if_neg (by simp [hok])]
    unfold analyzeMediaShapeOk at hshape
    revert hshape
    cases body.is_deepfake <;> simp [DetectResult.isFailure]
  · intro body b hb hok
    unfold detectDeepfakeResponse
    rw [if_neg (by simp [hok])]
    rw [hb]
  · intro confidence model b
    rfl
  · intro model b
    rfl

/-- Witness for the amended C7 at concrete inputs: a body whose AI flag is
the string `"yes"` is rejected; a body with a boolean flag and a missing
confidence is accepted with the default `0` substituted (while a truthy
string confidence `"0.9"` is carried through uncoerced, as `||` keeps
it). -/
theorem response_validation_flag_only_witness :
    (detectDeepfakeResponse 200
      { is_deepfake := .str "yes", confidence := .num 0.5, model := .missing }).isFailure
        = true ∧
    detectDeepfakeResponse 200
        { is_deepfake := .bool true, confidence := .str "0.9", model := .missing } =
      .success true (jsOr (.str "0.9") (.num 0)) (jsOr JsonVal.missing (.str "unknown")) ∧
    analyzeMediaShapeOk { is_deepfake := .bool false, confidence := .missing,
                          model := .missing } = true ∧
    detectDeepfakeResponse 200
        { is_deepfake := .bool false, confidence := .missing, model := .missing } =
      .success false (.num 0) (jsOr JsonVal.missing (.str "unknown")) := by
  refine ⟨?_, ?_, ?_, ?_⟩
  · exact response_validation_flag_only.1 200
      { is_deepfake := .str "yes", confidence := .num 0.5, model := .missing } rfl rfl
  · exact response_validation_flag_only.2.1
      { is_deepfake := .bool true, confidence := .str "0.9", model := .missing } true rfl rfl
  · exact response_validation_flag_only.2.2.1 JsonVal.missing JsonVal.missing false
  · exact response_validation_flag_only.2.2.2 JsonVal.missing false

/-! ## C10 / C8 / C9: threat handling in the background service worker
(background.js `sanitizeUrl` lines 171-180, `handleThreatDetection` lines
265-302, `storeThreatHistory` lines 304-319, `showThreatNotification`
lines 321-343, `NotificationRateLimiter` lines 93-108, and the `THREAT`
branch of the message listener, lines 219-237)

`handleThreatDetection` builds a `threatRecord` from the incoming message:
`url` is `sanitizeUrl(pageUrl)` (the eight sensitive query parameters
deleted; an unparsable URL becomes the literal `'[Invalid URL]'`),
`confidence` is `Math.min(1, Math.max(0, Number(threatData.confidence) ||
0))`, `type` is `threatData.type || 'deepfake'`, `timestamp` is
`Date.now()`.  It then runs `atomicUpdate` (threat counter + lastThreat),
`storeThreatHistory`, and `showThreatNotification`, in that order.

A URL is modelled post-parse: `none` for an unparsable string, otherwise
a base plus the ordered list of query parameters.  `Number(x)` applied to
the incoming confidence is modelled as either a rational or NaN
(`JsNum.nan`); `NaN || 0` and `0 || 0` both yield `0`.

`showThreatNotification` first consults the limiter: `canSend` prunes
timestamps older than 60 s from `notifications` (a persistent mutation)
and admits iff fewer than `MAX_NOTIFICATIONS_PER_MINUTE` remain; when
admitted the notification is created and `recordSent` appends `Date.now()`.

Storage failures: `atomicUpdate` retries `chrome.storage.sync.set` up to
`MAX_ATOMIC_RETRIES` times inside the mutex and re-throws the final
error, which `handleThreatDetection` re-throws, which the `THREAT`
message handler turns into `sendResponse({success: false})`.
`storeThreatHistory`, by contrast, wraps its body in try/catch and only
logs the error: a failing `chrome.storage.local.set` never escapes it.
The fault model below collapses "every retry failed" into one flag per
storage tier and treats an un-faulted write as succeeding. -/

inductive JsNum : Type
  | num (q : ℚ)
  | nan
  deriving DecidableEq, Repr

/-- JS `Number(x) || 0`: NaN and 0 are falsy and give the default 0. -/
def jsNumOrZero (v : JsNum) : ℚ :=
  match v with
  | .num q => if q = 0 then 0 else q
  | .nan => 0

/-- JS `x || 'deepfake'` on the incoming `threatData.type`: an absent or
empty string falls back to the default. -/
def jsTypeOrDefault (v : Option String) : String :=
  match v with
  | some s => if s = "" then "deepfake" else s
  | none => "deepfake"

structure ParsedUrl : Type where
  base : String
  params : List (String × String)
  deriving DecidableEq, Repr

def sensitiveParams : List String :=
  ["token", "key", "session", "auth", "password", "access_token", "api_key", "secret"]

inductive SanitizedUrl : Type
  | invalid
  | url (base : String) (params : List (String × String))
  deriving DecidableEq, Repr

/-- background.js `sanitizeUrl` (lines 171-180): delete the eight
sensitive query parameters; an unparsable URL yields `'[Invalid URL]'`,
modelled as `SanitizedUrl.invalid`. -/
def sanitizeUrl (pageUrl : Option ParsedUrl) : SanitizedUrl :=
  match pageUrl with
  | none => .invalid
  | some u => .url u.base (u.params.filter (fun p => p.1 ∉ sensitiveParams))

def sanitizedHasParam (u : SanitizedUrl) (name : String) : Bool :=
  match u with
  | .invalid => false
  | .url _ params => params.any (fun p => p.1 = name)

structure ThreatRecord : Type where
  url : SanitizedUrl
  confidence : ℚ
  type : String
  timestamp : Nat
  deriving DecidableEq, Repr

/-- The `threatRecord` literal of `handleThreatDetection` (background.js
lines 267-275). -/
def buildThreatRecord (confidence : JsNum) (type : Option String)
    (pageUrl : Option ParsedUrl) (now : Nat) : ThreatRecord :=
  { url := sanitizeUrl pageUrl,
    confidence := min 1 (max 0 (jsNumOrZero confidence)),
    type := jsTypeOrDefault type,
    timestamp := now }

/-- Claim C10: every `ThreatRecord` built by threat handling is
well-formed regardless of the incoming message's field values: its
confidence is clamped into [0,1] and a non-numeric confidence becomes 0,
its URL carries none of the eight sensitive query parameters (or is the
invalid-URL marker), its type defaults to `deepfake` when absent, and its
timestamp is the handling time. -/
theorem sanitizeUrl_no_sensitive (pageUrl : Option ParsedUrl) (p : String)
    (hp : p ∈ sensitiveParams) :
    sanitizedHasParam (sanitizeUrl pageUrl) p = false := by
  cases pageUrl with
  | none => rfl
  | some u =>
    simp only [sanitizeUrl, sanitizedHasParam]
    rw [List.any_eq_false]
    intro q hq
    have h1 := List.of_mem_filter hq
    simp only [decide_eq_true_eq] at h1
    simp only [decide_eq_true_eq]
    intro heq
    rw [heq] at h1
    exact h1 hp

theorem buildThreatRecord_wellformed (confidence : JsNum) (type : Option String)
    (pageUrl : Option ParsedUrl) (now : Nat) :
    0 ≤ (buildThreatRecord confidence type pageUrl now).confidence ∧
    (buildThreatRecord confidence type pageUrl now).confidence ≤ 1 ∧
    (buildThreatRecord .nan type pageUrl now).confidence = 0 ∧
    (sensitiveParams.all (fun p =>
      !(sanitizedHasParam (buildThreatRecord confidence type pageUrl now).url p))) = true ∧
    (buildThreatRecord confidence none pageUrl now).type = "deepfake" ∧
    (buildThreatRecord confidence type pageUrl now).timestamp = now := by
  refine ⟨?_, ?_, ?_, ?_, ?_, ?_⟩
  · exact le_min (by norm_num) (le_max_left 0 _)
  · exact min_le_left 1 _
  · simp [buildThreatRecord, jsNumOrZero]
  · simp only [List.all_eq_true]
    intro p hp
    have h := sanitizeUrl_no_sensitive pageUrl p hp
    simp only [buildThreatRecord]
    rw [h]
    rfl
  · rfl
  · rfl

def noFaults : Bool × Bool := (false, false)

/-- Background state touched by threat handling; `notifCreated` counts the
`chrome.notifications.create` calls (the presentation side effect),
`limiterTimestamps` is `NotificationRateLimiter.notifications`. -/
structure BgState : Type where
  threats : Nat
  lastThreat : Option ThreatRecord
  threatHistory : List ThreatRecord
  limiterTimestamps : List Nat
  notifCreated : Nat
  deriving DecidableEq, Repr

/-- Model of `NotificationRateLimiter.canSend` (lines 99-103): prune entries older
than 60 s (a persistent mutation of `notifications`) and admit iff fewer
than `maxPerMinute` remain. -/
def canSendPrune (now : Nat) (timestamps : List Nat) : List Nat :=
  timestamps.filter (fun t => now - t < 60000)

/-- Model of `showThreatNotification` (lines 321-343): gated on `canSend`; when
admitted, create the notification and `recordSent` (push `Date.now()`);
when suppressed, return with no side effect beyond the pruning. -/
def showThreatNotificationRun (now : Nat) (s : BgState) : BgState :=
  let pruned := canSendPrune now s.limiterTimestamps
  if pruned.length < MAX_NOTIFICATIONS_PER_MINUTE then
    { s with limiterTimestamps := pruned ++ [now], notifCreated := s.notifCreated + 1 }
  else
    { s with limiterTimestamps := pruned }

/-- Model of `atomicUpdate(chrome.storage.sync, {threats: c => (c || 0) + 1,
lastThreat: record})` (lines 277-280), with a fault flag standing for
"`chrome.storage.sync.set` failed on all `MAX_ATOMIC_RETRIES` attempts",
in which case the last error is re-thrown. -/
def atomicUpdateThreats (syncSetFails : Bool) (s : BgState) (record : ThreatRecord) :
    Except String BgState :=
  if syncSetFails then .error "sync storage write failed"
  else .ok { s with threats := s.threats + 1, lastThreat := some record }

/-- Model of `storeThreatHistory` as executed against the background state (lines
304-319): push-then-truncate under try/catch — a failing
`chrome.storage.local.set` is caught and logged, leaving the stored
history unchanged and raising nothing to the caller. -/
def storeThreatHistoryRun (localSetFails : Bool) (s : BgState) (record : ThreatRecord) :
    BgState :=
  if localSetFails then s
  else { s with threatHistory := storeThreatHistory s.threatHistory record }

/-- Model of `handleThreatDetection` (lines 265-302): build the record, then
counter/lastThreat update, then history append, then notification; the
outer catch re-throws whatever escapes. -/
def handleThreatDetectionRun (faults : Bool × Bool) (s : BgState)
    (confidence : JsNum) (type : Option String) (pageUrl : Option ParsedUrl)
    (now : Nat) : Except String BgState :=
  match atomicUpdateThreats faults.1 s (buildThreatRecord confidence type pageUrl now) with
  | .error e => .error e
  | .ok s1 =>
    .ok (showThreatNotificationRun now
      (storeThreatHistoryRun faults.2 s1 (buildThreatRecord confidence type pageUrl now)))

/-- The `success` flag of the response sent by the `THREAT` branch of the
message listener (lines 229-231): `true` from the `.then`, `false` from
the `.catch`. -/
def threatResponseSuccess (faults : Bool × Bool) (s : BgState) (confidence : JsNum)
    (type : Option String) (pageUrl : Option ParsedUrl) (now : Nat) : Bool :=
  match handleThreatDetectionRun faults s confidence type pageUrl now with
  | .ok _ => true
  | .error _ => false

/-- Claim C8: when the notification rate window is at capacity while a
threat is handled (five or more timestamps within the last minute), only
the outbound notification is suppressed: the threat counter increment,
the `lastThreat` update, and the history append all still occur exactly
as they would, and no notification is created — the gate throttles the
presentation side effect, never the bookkeeping. -/
theorem showThreatNotificationRun_suppressed (now : Nat) (st : BgState)
    (hfull : (canSendPrune now st.limiterTimestamps).length ≥ MAX_NOTIFICATIONS_PER_MINUTE) :
    showThreatNotificationRun now st =
      { st with limiterTimestamps := canSendPrune now st.limiterTimestamps } := by
  simp only [showThreatNotificationRun]
  rw [if_neg (not_lt.mpr hfull)]

theorem notification_gate_spares_bookkeeping (s : BgState) (confidence : JsNum)
    (type : Option String) (pageUrl : Option ParsedUrl) (now : Nat)
    (hfull : (canSendPrune now s.limiterTimestamps).length ≥ MAX_NOTIFICATIONS_PER_MINUTE) :
    ∃ s2, handleThreatDetectionRun noFaults s confidence type pageUrl now = .ok s2 ∧
      s2.threats = s.threats + 1 ∧
      s2.lastThreat = some (buildThreatRecord confidence type pageUrl now) ∧
      s2.threatHistory =
        storeThreatHistory s.threatHistory (buildThreatRecord confidence type pageUrl now) ∧
      s2.notifCreated = s.notifCreated := by
  have h1 : handleThreatDetectionRun noFaults s confidence type pageUrl now =
      .ok (showThreatNotificationRun now
        { threats := s.threats + 1,
          lastThreat := some (buildThreatRecord confidence type pageUrl now),
          threatHistory :=
            storeThreatHistory s.threatHistory (buildThreatRecord confidence type pageUrl now),
          limiterTimestamps := s.limiterTimestamps,
          notifCreated := s.notifCreated }) := rfl
  have h2 := showThreatNotificationRun_suppressed now
    { threats := s.threats + 1,
      lastThreat := some (buildThreatRecord confidence type pageUrl now),
      threatHistory :=
        storeThreatHistory s.threatHistory (buildThreatRecord confidence type pageUrl now),
      limiterTimestamps := s.limiterTimestamps,
      notifCreated := s.notifCreated } hfull
  rw [h2] at h1
  exact ⟨_, h1, rfl, rfl, rfl, rfl⟩

/-- Witness for C8 at a concrete input: with five fresh limiter
timestamps, handling a threat increments the counter, sets `lastThreat`,
appends to the history, and creates no notification. -/
theorem notification_gate_spares_bookkeeping_witness :
    ∃ s2, handleThreatDetectionRun noFaults
        ⟨3, none, [], [100, 100, 100, 100, 100], 7⟩
        (.num 0.9) (some "deepfake") (some ⟨"https://e/", []⟩) 200 = .ok s2 ∧
      s2.threats = 3 + 1 ∧
      s2.lastThreat = some (buildThreatRecord (.num 0.9) (some "deepfake")
        (some ⟨"https://e/", []⟩) 200) ∧
      s2.threatHistory = storeThreatHistory []
        (buildThreatRecord (.num 0.9) (some "deepfake") (some ⟨"https://e/", []⟩) 200) ∧
      s2.notifCreated = 7 :=
  notification_gate_spares_bookkeeping ⟨3, none, [], [100, 100, 100, 100, 100], 7⟩
    (.num 0.9) (some "deepfake") (some ⟨"https://e/", []⟩) 200 (by decide)

def historyFaultOnly : Bool × Bool := (false, true)

/-- Counterexample for claim C9: when the history append's storage write
fails (and the counter update succeeds), `storeThreatHistory` swallows
the error, `handleThreatDetection` resolves, and the `THREAT` message
response still reports success — the history was not appended, yet the
caller is told `{success: true}`. -/
theorem threat_response_success_despite_failed_history :
    threatResponseSuccess historyFaultOnly ⟨0, none, [], [], 0⟩
      (.num 0.9) (some "deepfake") (some ⟨"https://e/", []⟩) 100 = true ∧
    handleThreatDetectionRun historyFaultOnly ⟨0, none, [], [], 0⟩
      (.num 0.9) (some "deepfake") (some ⟨"https://e/", []⟩) 100 =
      .ok ⟨1, some (buildThreatRecord (.num 0.9) (some "deepfake")
            (some ⟨"https://e/", []⟩) 100), [], [100], 1⟩ := by
  constructor
  · rfl
  · rfl

/-- Claim C9 (amended): the `THREAT` response's success flag tracks only
the counter/lastThreat update: a failure there (all `atomicUpdate` write
retries exhausted) is reported as `{success: false}`, but a failure of
the history append is caught and logged inside `storeThreatHistory`, so
the response reports `{success: true}` even though that state mutation
silently failed. -/
theorem threat_response_tracks_counter_only (faults : Bool × Bool) (s : BgState)
    (confidence : JsNum) (type : Option String) (pageUrl : Option ParsedUrl)
    (now : Nat) :
    threatResponseSuccess faults s confidence type pageUrl now = !faults.1 := by
  unfold threatResponseSuccess handleThreatDetectionRun atomicUpdateThreats
  cases h : faults.1 <;> simp [h]

/-! ## C1: the storage mutex and `atomicIncrement`
(background.js `AsyncMutex` lines 7-41, `storageMutex` line 43,
`atomicIncrement` lines 45-62)

`AsyncMutex.acquire` resolves immediately (setting `locked`) when the
mutex is free, otherwise pushes the caller's `resolve` onto `queue`;
`release` shifts the queue and wakes the front waiter if any, else clears
`locked`.  `atomicIncrement` runs read → add → write inside
`withLock` (the storage operations are modelled as succeeding; the
`MAX_ATOMIC_RETRIES` loop only re-attempts a *failed* write inside the
same critical section and is orthogonal to lost-update freedom).

The extension runs on the single-threaded JS event loop: concurrency is
the interleaving of the callers' await-separated segments.  Each of `N`
callers of `atomicIncrement(storage, key, 1)` is a small program
`acquire → read → write(read value + 1) → release`, and a configuration
records the stored counter value, the mutex state, each caller's phase
(the read value is the caller's local), plus two instrumentation lists:
the order in which callers joined the wait queue (`arrivals`) and the
order in which waiters were granted the lock (`grants`).  `MStep` allows
any enabled caller to run its next segment, so all event-loop
interleavings are covered. -/

inductive CallerPhase : Type
  | start
  | waiting
  | reading
  | writing (localVal : Nat)
  | releasing
  | done
  deriving DecidableEq, Repr

structure MutexCfg (N : Nat) : Type where
  counter : Nat
  locked : Bool
  queue : List (Fin N)
  phase : Fin N → CallerPhase
  arrivals : List (Fin N)
  grants : List (Fin N)

def initCfg (N : Nat) (c : Nat) : MutexCfg N :=
  { counter := c, locked := false, queue := [], phase := fun _ => .start,
    arrivals := [], grants := [] }

/-- One caller's contribution to the counter so far: `1` once its write
has landed (it reached `releasing` or `done`). -/
def phaseWritten : CallerPhase → Nat
  | .releasing => 1
  | .done => 1
  | _ => 0

def writtenCount {N : Nat} (ph : Fin N → CallerPhase) : Nat :=
  ∑ j, phaseWritten (ph j)

/-- A caller currently inside `withLock` (between a successful `acquire`
and the completion of `release`). -/
def IsHolder (p : CallerPhase) : Prop :=
  p = .reading ∨ (∃ v, p = .writing v) ∨ p = .releasing

/-- Interleaving semantics of `N` concurrent `atomicIncrement` callers
sharing `storageMutex`.  `acquireFree`/`acquireBusy` are the two branches
of `AsyncMutex.acquire`; `releaseGrant`/`releaseFree` the two branches of
`AsyncMutex.release` (shift-and-wake vs unlock); `readStep`/`writeStep`
are the storage get/set segments of `atomicIncrement` with `amount = 1`. -/
inductive MStep {N : Nat} : MutexCfg N → MutexCfg N → Prop
  | acquireFree (c : MutexCfg N) (i : Fin N)
      (hp : c.phase i = .start) (hl : c.locked = false) :
      MStep c { c with locked := true, phase := Function.update c.phase i .reading }
  | acquireBusy (c : MutexCfg N) (i : Fin N)
      (hp : c.phase i = .start) (hl : c.locked = true) :
      MStep c { c with queue := c.queue ++ [i], arrivals := c.arrivals ++ [i],
                       phase := Function.update c.phase i .waiting }
  | readStep (c : MutexCfg N) (i : Fin N)
      (hp : c.phase i = .reading) :
      MStep c { c with phase := Function.update c.phase i (.writing c.counter) }
  | writeStep (c : MutexCfg N) (i : Fin N) (v : Nat)
      (hp : c.phase i = .writing v) :
      MStep c { c with counter := v + 1, phase := Function.update c.phase i .releasing }
  | releaseGrant (c : MutexCfg N) (i j : Fin N) (rest : List (Fin N))
      (hp : c.phase i = .releasing) (hq : c.queue = j :: rest) :
      MStep c { c with queue := rest, grants := c.grants ++ [j],
                       phase := Function.update (Function.update c.phase i .done) j .reading }
  | releaseFree (c : MutexCfg N) (i : Fin N)
      (hp : c.phase i = .releasing) (hq : c.queue = []) :
      MStep c { c with locked := false, phase := Function.update c.phase i .done }

def MutexReachable {N : Nat} (a b : MutexCfg N) : Prop :=
  Relation.ReflTransGen MStep a b

theorem writtenCount_update_of_eq {N : Nat} (ph : Fin N → CallerPhase) (i : Fin N)
    (p : CallerPhase) (h : phaseWritten p = phaseWritten (ph i)) :
    writtenCount (Function.update ph i p) = writtenCount ph := by
  unfold writtenCount
  apply Finset.sum_congr rfl
  intro j _
  rw [Function.update_apply]
  split
  · rename_i hj
    subst hj
    exact h
  · rfl

theorem writtenCount_update_succ {N : Nat} (ph : Fin N → CallerPhase) (i : Fin N)
    (p : CallerPhase) (h0 : phaseWritten (ph i) = 0) (h1 : phaseWritten p = 1) :
    writtenCount (Function.update ph i p) = writtenCount ph + 1 := by
  unfold writtenCount
  have hcomp : (fun j => phaseWritten (Function.update ph i p j)) =
      Function.update (fun j => phaseWritten (ph j)) i (phaseWritten p) := by
    funext j
    rw [Function.update_apply, Function.update_apply]
    split <;> rfl
  rw [hcomp, Finset.sum_update_of_mem (Finset.mem_univ i), h1]
  have hsplit : ∑ j, phaseWritten (ph j) =
      phaseWritten (ph i) + ∑ j in Finset.univ \ {i}, phaseWritten (ph j) :=
    Finset.sum_eq_add_sum_diff_singleton (Finset.mem_univ i) _
  rw [hsplit, h0]
  ring

/-- The inductive invariant of the mutex-guarded increment system. -/
structure MuInv {N : Nat} (c : Nat) (cfg : MutexCfg N) : Prop where
  mem_queue : ∀ i, i ∈ cfg.queue ↔ cfg.phase i = .waiting
  nodupq : cfg.queue.Nodup
  holder_unique : ∀ i j, IsHolder (cfg.phase i) → IsHolder (cfg.phase j) → i = j
  locked_iff : cfg.locked = true ↔ ∃ i, IsHolder (cfg.phase i)
  counter_eq : cfg.counter = c + writtenCount cfg.phase
  writing_val : ∀ i v, cfg.phase i = .writing v → v = cfg.counter
  arr_eq : cfg.arrivals = cfg.grants ++ cfg.queue

theorem muInv_init (N c : Nat) : MuInv c (initCfg N c) := by
  constructor
  · intro i
    simp [initCfg]
  · simp [initCfg]
  · intro i j hi hj
    simp [initCfg, IsHolder] at hi
  · simp [initCfg, IsHolder]
  · simp [initCfg, writtenCount, phaseWritten]
  · intro i v h
    simp [initCfg] at h
  · simp [initCfg]

theorem muInv_step {N c0 : Nat} {cfg cfg2 : MutexCfg N}
    (hinv : MuInv c0 cfg) (hs : MStep cfg cfg2) : MuInv c0 cfg2 := by
  cases hs with
  | acquireFree i hp hl =>
    have hnh : ∀ k, ¬ IsHolder (cfg.phase k) := by
      intro k hk
      have hlk : cfg.locked = true := hinv.locked_iff.mpr ⟨k, hk⟩
      rw [hl] at hlk
      exact Bool.false_ne_true hlk
    refine ⟨?_, hinv.nodupq, ?_, ?_, ?_, ?_, hinv.arr_eq⟩
    · intro k
      dsimp only
      by_cases hk : k = i
      · subst hk
        rw [Function.update_same]
        constructor
        · intro hmem
          have hw := (hinv.mem_queue k).mp hmem
          rw [hp] at hw
          exact CallerPhase.noConfusion hw
        · intro hre
          exact CallerPhase.noConfusion hre
      · rw [Function.update_noteq hk]
        exact hinv.mem_queue k
    · intro k l hk hl2
      dsimp only at hk hl2
      have hki : k = i := by
        by_contra hne
        rw [Function.update_noteq hne] at hk
        exact hnh k hk
      have hli : l = i := by
        by_contra hne
        rw [Function.update_noteq hne] at hl2
        exact hnh l hl2
      rw [hki, hli]
    · dsimp only
      constructor
      · intro _
        exact ⟨i, by rw [Function.update_same]; exact Or.inl rfl⟩
      · intro _
        rfl
    · dsimp only
      rw [writtenCount_update_of_eq _ _ _ (by rw [hp]; rfl)]
      exact hinv.counter_eq
    · intro k v hk
      dsimp only at hk ⊢
      by_cases hki : k = i
      · subst hki
        rw [Function.update_same] at hk
        exact CallerPhase.noConfusion hk
      · rw [Function.update_noteq hki] at hk
        exact absurd (Or.inr (Or.inl ⟨v, hk⟩)) (hnh k)
  | acquireBusy i hp hl =>
    have hiq : i ∉ cfg.queue := by
      intro hmem
      have hw := (hinv.mem_queue i).mp hmem
      rw [hp] at hw
      exact CallerPhase.noConfusion hw
    obtain ⟨h0, hh0⟩ := hinv.locked_iff.mp hl
    have hh0i : h0 ≠ i := by
      intro he
      rw [he, hp] at hh0
      simp [IsHolder] at hh0
    refine ⟨?_, ?_, ?_, ?_, ?_, ?_, ?_⟩
    · intro k
      dsimp only
      by_cases hk : k = i
      · subst hk
        rw [Function.update_same]
        simp
      · rw [Function.update_noteq hk, List.mem_append]
        simp only [List.mem_singleton]
        constructor
        · rintro (hm | he)
          · exact (hinv.mem_queue k).mp hm
          · exact absurd he hk
        · intro hw
          exact Or.inl ((hinv.mem_queue k).mpr hw)
    · dsimp only
      refine List.Nodup.append hinv.nodupq (List.nodup_singleton i) ?_
      intro a ha hb
      simp only [List.mem_singleton] at hb
      subst hb
      exact hiq ha
    · intro k l hk hl2
      dsimp only at hk hl2
      have hk2 : IsHolder (cfg.phase k) := by
        by_cases hki : k = i
        · subst hki
          rw [Function.update_same] at hk
          simp [IsHolder] at hk
        · rwa [Function.update_noteq hki] at hk
      have hl3 : IsHolder (cfg.phase l) := by
        by_cases hli : l = i
        · subst hli
          rw [Function.update_same] at hl2
          simp [IsHolder] at hl2
        · rwa [Function.update_noteq hli] at hl2
      exact hinv.holder_unique k l hk2 hl3
    · dsimp only
      constructor
      · intro _
        exact ⟨h0, by rw [Function.update_noteq hh0i]; exact hh0⟩
      · intro _
        exact hl
    · dsimp only
      rw [writtenCount_update_of_eq _ _ _ (by rw [hp]; rfl)]
      exact hinv.counter_eq
    · intro k v hk
      dsimp only at hk ⊢
      by_cases hki : k = i
      · subst hki
        rw [Function.update_same] at hk
        exact CallerPhase.noConfusion hk
      · rw [Function.update_noteq hki] at hk
        exact hinv.writing_val k v hk
    · dsimp only
      rw [hinv.arr_eq, List.append_assoc]
  | readStep i hp =>
    refine ⟨?_, hinv.nodupq, ?_, ?_, ?_, ?_, hinv.arr_eq⟩
    · intro k
      dsimp only
      by_cases hk : k = i
      · subst hk
        rw [Function.update_same]
        constructor
        · intro hmem
          have hw := (hinv.mem_queue k).mp hmem
          rw [hp] at hw
          exact CallerPhase.noConfusion hw
        · intro hre
          exact CallerPhase.noConfusion hre
      · rw [Function.update_noteq hk]
        exact hinv.mem_queue k
    · intro k l hk hl2
      dsimp only at hk hl2
      have hk2 : IsHolder (cfg.phase k) := by
        by_cases hki : k = i
        · subst hki
          rw [hp]
          exact Or.inl rfl
        · rwa [Function.update_noteq hki] at hk
      have hl3 : IsHolder (cfg.phase l) := by
        by_cases hli : l = i
        · subst hli
          rw [hp]
          exact Or.inl rfl
        · rwa [Function.update_noteq hli] at hl2
      exact hinv.holder_unique k l hk2 hl3
    · dsimp only
      constructor
      · intro _
        exact ⟨i, by rw [Function.update_same]; exact Or.inr (Or.inl ⟨cfg.counter, rfl⟩)⟩
      · intro _
        exact hinv.locked_iff.mpr ⟨i, Or.inl hp⟩
    · dsimp only
      rw [writtenCount_update_of_eq _ _ _ (by rw [hp]; rfl)]
      exact hinv.counter_eq
    · intro k v hk
      dsimp only at hk ⊢
      by_cases hki : k = i
      · subst hki
        rw [Function.update_same] at hk
        injection hk with hv
        rw [hv]
      · rw [Function.update_noteq hki] at hk
        have hcontra : k = i :=
          hinv.holder_unique k i (Or.inr (Or.inl ⟨v, hk⟩)) (Or.inl hp)
        exact absurd hcontra hki
  | writeStep i v hp =>
    have hvc : v = cfg.counter := hinv.writing_val i v hp
    refine ⟨?_, hinv.nodupq, ?_, ?_, ?_, ?_, hinv.arr_eq⟩
    · intro k
      dsimp only
      by_cases hk : k = i
      · subst hk
        rw [Function.update_same]
        constructor
        · intro hmem
          have hw := (hinv.mem_queue k).mp hmem
          rw [hp] at hw
          exact CallerPhase.noConfusion hw
        · intro hre
          exact CallerPhase.noConfusion hre
      · rw [Function.update_noteq hk]
        exact hinv.mem_queue k
    · intro k l hk hl2
      dsimp only at hk hl2
      have hk2 : IsHolder (cfg.phase k) := by
        by_cases hki : k = i
        · subst hki
          rw [hp]
          exact Or.inr (Or.inl ⟨v, rfl⟩)
        · rwa [Function.update_noteq hki] at hk
      have hl3 : IsHolder (cfg.phase l) := by
        by_cases hli : l = i
        · subst hli
          rw [hp]
          exact Or.inr (Or.inl ⟨v, rfl⟩)
        · rwa [Function.update_noteq hli] at hl2
      exact hinv.holder_unique k l hk2 hl3
    · dsimp only
      constructor
      · intro _
        exact ⟨i, by rw [Function.update_same]; exact Or.inr (Or.inr rfl)⟩
      · intro _
        exact hinv.locked_iff.mpr ⟨i, Or.inr (Or.inl ⟨v, hp⟩)⟩
    · dsimp only
      rw [writtenCount_update_succ cfg.phase i CallerPhase.releasing
        (by rw [hp]; rfl) rfl]
      rw [hvc, hinv.counter_eq]
      omega
    · intro k w hk
      dsimp only at hk ⊢
      by_cases hki : k = i
      · subst hki
        rw [Function.update_same] at hk
        exact CallerPhase.noConfusion hk
      · rw [Function.update_noteq hki] at hk
        have hcontra : k = i :=
          hinv.holder_unique k i (Or.inr (Or.inl ⟨w, hk⟩)) (Or.inr (Or.inl ⟨v, hp⟩))
        exact absurd hcontra hki
  | releaseGrant i j rest hp hq =>
    have hjw : cfg.phase j = .waiting :=
      (hinv.mem_queue j).mp (by rw [hq]; exact List.mem_cons_self j rest)
    have hij : i ≠ j := by
      intro he
      rw [he, hjw] at hp
      exact CallerPhase.noConfusion hp
    have hnodup := hinv.nodupq
    rw [hq] at hnodup
    have hjrest : j ∉ rest := (List.nodup_cons.mp hnodup).1
    have hrestnd : rest.Nodup := (List.nodup_cons.mp hnodup).2
    have hiq : i ∉ cfg.queue := by
      intro hm
      have hw := (hinv.mem_queue i).mp hm
      rw [hp] at hw
      exact CallerPhase.noConfusion hw
    have hirest : i ∉ rest := by
      intro hm
      exact hiq (by rw [hq]; exact List.mem_cons_of_mem j hm)
    have hkey : ∀ m, IsHolder (Function.update (Function.update cfg.phase i .done) j
        .reading m) → m = j := by
      intro m hm
      by_cases hmj : m = j
      · exact hmj
      · rw [Function.update_noteq hmj] at hm
        by_cases hmi : m = i
        · subst hmi
          rw [Function.update_same] at hm
          simp [IsHolder] at hm
        · rw [Function.update_noteq hmi] at hm
          have hcontra : m = i := hinv.holder_unique m i hm (Or.inr (Or.inr hp))
          exact absurd hcontra hmi
    refine ⟨?_, hrestnd, ?_, ?_, ?_, ?_, ?_⟩
    · intro k
      dsimp only
      by_cases hkj : k = j
      · subst hkj
        rw [Function.update_same]
        constructor
        · intro hm
          exact absurd hm hjrest
        · intro hw
          exact CallerPhase.noConfusion hw
      · rw [Function.update_noteq hkj]
        by_cases hki : k = i
        · subst hki
          rw [Function.update_same]
          constructor
          · intro hm
            exact absurd hm hirest
          · intro hw
            exact CallerPhase.noConfusion hw
        · rw [Function.update_noteq hki]
          constructor
          · intro hm
            exact (hinv.mem_queue k).mp (by rw [hq]; exact List.mem_cons_of_mem j hm)
          · intro hw
            have hm := (hinv.mem_queue k).mpr hw
            rw [hq] at hm
            rcases List.mem_cons.mp hm with he | hm2
            · exact absurd he hkj
            · exact hm2
    · intro k l hk hl2
      dsimp only at hk hl2
      rw [hkey k hk, hkey l hl2]
    · dsimp only
      constructor
      · intro _
        refine ⟨j, ?_⟩
        rw [Function.update_same]
        exact Or.inl rfl
      · intro _
        exact hinv.locked_iff.mpr ⟨i, Or.inr (Or.inr hp)⟩
    · dsimp only
      have h2 : writtenCount (Function.update (Function.update cfg.phase i CallerPhase.done) j
          CallerPhase.reading) = writtenCount (Function.update cfg.phase i CallerPhase.done) := by
        apply writtenCount_update_of_eq
        rw [Function.update_noteq (Ne.symm hij), hjw]
        rfl
      have h1 : writtenCount (Function.update cfg.phase i CallerPhase.done) =
          writtenCount cfg.phase :=
        writtenCount_update_of_eq _ _ _ (by rw [hp]; rfl)
      rw [h2, h1]
      exact hinv.counter_eq
    · intro k v hk
      dsimp only at hk ⊢
      have hkj : k = j := hkey k (Or.inr (Or.inl ⟨v, hk⟩))
      subst hkj
      rw [Function.update_same] at hk
      exact CallerPhase.noConfusion hk
    · dsimp only
      rw [hinv.arr_eq, hq]
      simp
  | releaseFree i hp hq =>
    have hnw : ∀ k, cfg.phase k ≠ .waiting := by
      intro k hw
      have hm := (hinv.mem_queue k).mpr hw
      rw [hq] at hm
      exact absurd hm (List.not_mem_nil k)
    have hnoh : ∀ k, ¬ IsHolder (Function.update cfg.phase i CallerPhase.done k) := by
      intro k hk
      by_cases hki : k = i
      · subst hki
        rw [Function.update_same] at hk
        simp [IsHolder] at hk
      · rw [Function.update_noteq hki] at hk
        have hcontra : k = i := hinv.holder_unique k i hk (Or.inr (Or.inr hp))
        exact absurd hcontra hki
    refine ⟨?_, hinv.nodupq, ?_, ?_, ?_, ?_, hinv.arr_eq⟩
    · intro k
      dsimp only
      constructor
      · intro hm
        rw [hq] at hm
        exact absurd hm (List.not_mem_nil k)
      · intro hw
        by_cases hki : k = i
        · subst hki
          rw [Function.update_same] at hw
          exact CallerPhase.noConfusion hw
        · rw [Function.update_noteq hki] at hw
          exact absurd hw (hnw k)
    · intro k l hk hl2
      dsimp only at hk
      exact absurd hk (hnoh k)
    · dsimp only
      constructor
      · intro hfalse
        exact absurd hfalse (by simp)
      · rintro ⟨k, hk⟩
        exact absurd hk (hnoh k)
    · dsimp only
      rw [writtenCount_update_of_eq _ _ _ (by rw [hp]; rfl)]
      exact hinv.counter_eq
    · intro k v hk
      dsimp only at hk ⊢
      exact absurd (Or.inr (Or.inl ⟨v, hk⟩)) (hnoh k)

theorem muInv_reachable {N c0 : Nat} {cfg : MutexCfg N}
    (h : MutexReachable (initCfg N c0) cfg) : MuInv c0 cfg := by
  induction h with
  | refl => exact muInv_init N c0
  | tail _ hstep ih => exact muInv_step ih hstep

/-- Claim C1: for every number of callers `N` (in particular every
`N ≤ 100`) and every event-loop interleaving of `N` concurrent
`atomicIncrement` callers on the same key through `storageMutex`, once
all callers have finished, the stored value equals the initial value plus
`N` — no increment is lost — and the waiting callers were granted the
lock exactly in the order they joined the mutex queue (FIFO arrival
order): the grant log equals the arrival log. -/
theorem atomicIncrement_no_lost_updates_fifo (N c0 : Nat) (cfg : MutexCfg N)
    (hreach : MutexReachable (initCfg N c0) cfg)
    (hdone : ∀ i, cfg.phase i = .done) :
    cfg.counter = c0 + N ∧ cfg.grants = cfg.arrivals := by
  have hinv := muInv_reachable hreach
  constructor
  · rw [hinv.counter_eq]
    congr 1
    unfold writtenCount
    calc ∑ j, phaseWritten (cfg.phase j)
        = ∑ _j : Fin N, 1 := Finset.sum_congr rfl (fun j _ => by rw [hdone j]; rfl)
      _ = N := by simp
  · have hq : cfg.queue = [] := by
      rw [List.eq_nil_iff_forall_not_mem]
      intro i hi
      have hw := (hinv.mem_queue i).mp hi
      rw [hdone i] at hw
      exact CallerPhase.noConfusion hw
    have harr := hinv.arr_eq
    rw [hq, List.append_nil] at harr
    exact harr.symm

/-- The configuration reached by a 2-caller schedule in which caller 1
arrives while caller 0 holds the lock: both increments land (counter 2
from initial 0) and caller 1 was granted the lock from the queue. -/
def witnessCfg : MutexCfg 2 :=
  { counter := 2, locked := false, queue := [], phase := fun _ => .done,
    arrivals := [1], grants := [1] }

theorem witnessCfg_reachable : MutexReachable (initCfg 2 0) witnessCfg := by
  refine .head (MStep.acquireFree (initCfg 2 0) 0 rfl rfl) ?_
  refine .head (MStep.acquireBusy _ 1 rfl rfl) ?_
  refine .head (MStep.readStep _ 0 rfl) ?_
  refine .head (MStep.writeStep _ 0 0 rfl) ?_
  refine .head (MStep.releaseGrant _ 0 1 [] rfl rfl) ?_
  refine .head (MStep.readStep _ 1 rfl) ?_
  refine .head (MStep.writeStep _ 1 1 rfl) ?_
  refine .head (MStep.releaseFree _ 1 rfl rfl) ?_
  convert Relation.ReflTransGen.refl using 2
  funext j
  fin_cases j <;> rfl

/-- Witness for C1 at a concrete input: the 2-caller schedule above is a
reachable all-done configuration, and the theorem yields counter
`0 + 2` with the grant log equal to the arrival log. -/
theorem atomicIncrement_no_lost_updates_fifo_witness :
    witnessCfg.counter = 0 + 2 ∧ witnessCfg.grants = witnessCfg.arrivals :=
  atomicIncrement_no_lost_updates_fifo 2 0 witnessCfg witnessCfg_reachable
    (fun _ => rfl)

end Bradley
